import Mathlib

/-!
Verification of eslint-plugin-data-boundaries against its specification.

The development shallowly embeds the plugin's core algorithms:
* `src/utils/schema-parser.ts` — domain-index building, path classification,
  name classification, casing conversion;
* the `no-cross-domain-prisma-access` rule — Prisma client-access checking;
* the `no-cross-schema-slonik-access` rule — SQL table-reference extraction
  and classification;
* the `no-cross-file-model-references` rule — same-file type-reference checks.

JavaScript strings are modelled as Lean `String` (= packed `List Char`),
restricted to the ASCII behaviour of `toUpperCase`/`toLowerCase` that the
identifiers involved exercise.  JavaScript objects used as string-keyed maps
are modelled as association lists with in-place update (preserving key
insertion order, last writer wins), and JS truthiness of a string is
`s ≠ ""` / of an optional field is `Option` plus non-emptiness.
Operations that can throw (directory globbing, schema parsing) are modelled
by `Option`-valued inputs: `none` stands for a thrown exception.
-/

namespace DataBoundaries

/-! ## JS string primitives (ASCII model) -/

/-- JS `c.toUpperCase()` for a single character, ASCII range
(`a`–`z` maps to `A`–`Z`, everything else fixed). -/
def jsToUpperChar (c : Char) : Char :=
  if c.toNat ≥ 97 ∧ c.toNat ≤ 122 then Char.ofNat (c.toNat - 32) else c

/-- JS `c.toLowerCase()` for a single character, ASCII range. -/
def jsToLowerChar (c : Char) : Char :=
  if c.toNat ≥ 65 ∧ c.toNat ≤ 90 then Char.ofNat (c.toNat + 32) else c

/-- JS `toUpperCase()` of a one-character string, as a character list:
the ASCII simple mapping, plus the Unicode special casing where the
uppercase of one character is several — modelled by its canonical
representative, the sharp s expanding to `SS`.  Other non-ASCII
characters are kept fixed (their special casings are outside this
model's scope; the single-character results below are only asserted for
ASCII input). -/
def jsUpperCharExpansion (c : Char) : List Char :=
  if c.toNat ≥ 97 ∧ c.toNat ≤ 122 then [Char.ofNat (c.toNat - 32)]
  else if c = 'ß' then ['S', 'S']
  else [c]

/-- JS `s.toUpperCase()` (ASCII model). -/
def jsToUpper (s : String) : String :=
  String.mk (s.data.map jsToUpperChar)

/-- JS `s.toLowerCase()` (ASCII model). -/
def jsToLower (s : String) : String :=
  String.mk (s.data.map jsToLowerChar)

/-- JS `path.replace(/\\/g, '/')`: every backslash becomes a forward slash. -/
def jsReplaceBackslash (s : String) : String :=
  String.mk (s.data.map (fun c => if c = '\\' then '/' else c))

/-- JS `haystack.indexOf(needle)` (returning `none` for `-1`):
index of the first occurrence of `pat` as a contiguous sublist. -/
def indexOfSub (pat : List Char) : List Char → Option Nat
  | [] => if pat.isPrefixOf ([] : List Char) then some 0 else none
  | c :: rest =>
    if pat.isPrefixOf (c :: rest) then some 0
    else (indexOfSub pat rest).map (· + 1)

/-- JS `s.split(sep)` for a single-character separator. -/
def splitOnChar (sep : Char) : List Char → List (List Char)
  | [] => [[]]
  | c :: rest =>
    match splitOnChar sep rest with
    | [] => if c = sep then [[], []] else [[c]]
    | seg :: segs => if c = sep then [] :: seg :: segs else (c :: seg) :: segs

/-! ## JS object-as-map model -/

/-- Read `obj[k]` from a string-keyed JS object modelled as an
association list. -/
def mappingGet (m : List (String × String)) (k : String) : Option String :=
  (m.find? (fun p => p.1 = k)).map (·.2)

/-- Write `obj[k] = v`: updates an existing key in place (JS objects keep
the original insertion position of a key on overwrite), otherwise appends. -/
def mappingSet (m : List (String × String)) (k v : String) : List (String × String) :=
  if m.any (fun p => p.1 = k) then
    m.map (fun p => if p.1 = k then (k, v) else p)
  else m ++ [(k, v)]

/-! ## Schema AST (output of the `@mrleebo/prisma-ast` oracle) -/

/-- A field's type descriptor as produced by the schema oracle: a plain
string, an `array`/`optional` wrapper object, some other object carrying
optional `name` and a `fieldType` payload, an object without a usable
`type` tag, or `undef` for an absent (JS `undefined`/`null`) value. -/
inductive FieldType where
  | strTy (s : String)
  | arrayTy (inner : FieldType)
  | optionalTy (inner : FieldType)
  | otherTy (name : Option String) (inner : FieldType)
  | noTypeTy
  | undef
deriving DecidableEq, Repr

/-- A property of a model declaration (`property.type`, `property.name`,
`property.fieldType`; `FieldType.undef` models an absent field type). -/
structure PrismaProperty where
  propType : String
  name : String
  fieldType : FieldType
deriving DecidableEq, Repr

/-- An entry of `schema.list`: a declaration with `type` tag (`"model"`,
`"enum"`, …), `name` (`""` models a missing/falsy name) and, for models,
a `properties` array (`none` models an absent array). -/
structure PrismaItem where
  itemType : String
  name : String
  properties : Option (List PrismaProperty)
deriving DecidableEq, Repr

/-- One schema file as seen by `buildModelToDomainMapping`: its base name
(extension stripped) and the result of `getSchema(readFileSync(...))`,
where `none` models a thrown read/parse error. -/
structure SchemaFile where
  fileName : String
  parsed : Option (List PrismaItem)
deriving DecidableEq, Repr

/-! ## `schema-parser.ts` -/

/-- Domain label derived from a schema file's base name:
`"schema"`/`"main"` are reserved and map to `"shared"`. -/
def domainNameOfFile (fileName : String) : String :=
  if fileName = "schema" ∨ fileName = "main" then "shared" else fileName

/-- The per-file `schema.list.forEach` body of `buildModelToDomainMapping`:
record `name → domainName` for every item with `type === 'model'` and a
truthy name. -/
def recordFileModels (mapping : List (String × String)) (domainName : String)
    (items : List PrismaItem) : List (String × String) :=
  items.foldl
    (fun m it =>
      if it.itemType = "model" ∧ it.name ≠ "" then mappingSet m it.name domainName else m)
    mapping

/-- The `for (const filePath of schemaFiles)` loop of
`buildModelToDomainMapping`.  A file whose `parsed` is `none` throws; the
surrounding `catch` then returns whatever the accumulator already holds. -/
def buildMappingLoop : List SchemaFile → List (String × String) → List (String × String)
  | [], acc => acc
  | f :: rest, acc =>
    match f.parsed with
    | none => acc
    | some items => buildMappingLoop rest (recordFileModels acc (domainNameOfFile f.fileName) items)

/-- `buildModelToDomainMapping(schemaDir)` from `src/utils/schema-parser.ts`.
The directory enumeration (`glob.sync`) is the `Option`-valued input:
`none` models the glob itself throwing (caught, return the accumulator,
which is still empty at that point). -/
def buildModelToDomainMapping (globResult : Option (List SchemaFile)) :
    List (String × String) :=
  match globResult with
  | none => []
  | some files => buildMappingLoop files []

/-- `extractModuleFromPath(filePath, modulePath)` from
`src/utils/schema-parser.ts`. -/
def extractModuleFromPath (filePath : String) (modulePath : String) : Option String :=
  let normalizedPath := (jsReplaceBackslash filePath).data
  let normalizedModulePath := (jsReplaceBackslash modulePath).data
  match indexOfSub normalizedModulePath normalizedPath with
  | none => none
  | some moduleIndex =>
    let afterModulePath := normalizedPath.drop (moduleIndex + normalizedModulePath.length)
    let parts := (splitOnChar '/' afterModulePath).filter (fun part => part.length != 0)
    (parts.head?).map String.mk

/-- The `commonMethods` block-list of `isPrismaModelName`. -/
def commonMethods : List String :=
  ["findMany", "findFirst", "findUnique", "create", "update", "delete", "upsert",
   "count", "aggregate", "find", "get", "connect", "disconnect", "executeRaw",
   "queryRaw", "transaction"]

/-- The `commonProps` block-list of `isPrismaModelName`. -/
def commonProps : List String :=
  ["length", "constructor", "prototype", "toString", "valueOf"]

/-- `/^[A-Za-z]/`-style character class test. -/
def isAsciiLetter (c : Char) : Bool :=
  ('A' ≤ c ∧ c ≤ 'Z') ∨ ('a' ≤ c ∧ c ≤ 'z')

/-- JS `\d` character class. -/
def isAsciiDigit (c : Char) : Bool :=
  '0' ≤ c ∧ c ≤ '9'

/-- The regex `/^[A-Za-z][A-Za-z0-9]*$/`. -/
def matchesModelNameRegex (s : String) : Bool :=
  match s.data with
  | [] => false
  | c :: rest => isAsciiLetter c ∧ rest.all (fun d => isAsciiLetter d ∨ isAsciiDigit d)

/-- The regex `/^\d/`. -/
def startsWithDigit (s : String) : Bool :=
  match s.data with
  | [] => false
  | c :: _ => isAsciiDigit c

/-- `isPrismaModelName(name)` from `src/utils/schema-parser.ts`. -/
def isPrismaModelName (name : String) : Bool :=
  if name ∈ commonMethods ∨ name ∈ commonProps then false
  else
    name.length > 1 ∧ matchesModelNameRegex name ∧ ¬ startsWithDigit name ∧
      name ≠ jsToUpper name

/-- `camelToPascalCase(camelCase)` from `src/utils/schema-parser.ts`:
`charAt(0).toUpperCase() + slice(1)` — the uppercased first character may
be a multi-character expansion (`jsUpperCharExpansion`), which is
concatenated with the untouched remainder. -/
def camelToPascalCase (camelCase : String) : String :=
  match camelCase.data with
  | [] => ""
  | c :: rest => String.mk (jsUpperCharExpansion c ++ rest)

/-! ## ESTree expression nodes (the shapes the checkers inspect) -/

/-- The fragment of ESTree the two TypeScript rules look at:
identifiers, `this`, member accesses (`property` is itself a node —
a string `Literal` or computed index yields a non-`ident` property),
calls, and a catch-all `lit` for every other node kind. -/
inductive Node where
  | thisE : Node
  | ident (name : String) : Node
  | member (obj : Node) (property : Node) : Node
  | call (callee : Node) (args : List Node) : Node
  | lit : Node

/-- The findings the rules can report (message id plus `data` fields). -/
inductive Finding where
  | crossDomainAccess (currentModule modelName modelDomain : String)
  | modelNotFound (modelName : String)
  | configError
  | crossFileReference (field model : String)
  | crossSchemaAccess (currentModule schema table : String)
  | unqualifiedTable (currentModule table : String)
deriving DecidableEq, Repr

/-! ## `no-cross-domain-prisma-access` (src/rules, TS revision) -/

/-- `isPrismaClientAccess(node)`: the object is the identifier `prisma`,
or is itself a member expression whose property is the identifier
`prisma`. -/
def isPrismaClientAccess : Node → Bool
  | Node.member (Node.ident objName) _ => objName = "prisma"
  | Node.member (Node.member _ innerProp) _ =>
    match innerProp with
    | Node.ident n => n = "prisma"
    | _ => false
  | _ => false

/-- `getModelNameFromMemberExpression(node)`: the property name when the
property is a plain identifier, otherwise `null`. -/
def getModelNameFromMemberExpression : Node → Option String
  | Node.member _ (Node.ident n) => some n
  | _ => none

/-- The `MemberExpression` handler of `no-cross-domain-prisma-access`
(`create` in the TS rule): at most one report per visited node.
`mappingGet … = some ""` is a falsy lookup in JS and is treated like an
absent model, mirroring `if (!modelDomain)`. -/
def checkMemberExpression (modelToDomain : List (String × String))
    (currentModule : String) (node : Node) : Option Finding :=
  if isPrismaClientAccess node then
    match getModelNameFromMemberExpression node with
    | none => none
    | some modelName =>
      if modelName ≠ "" ∧ isPrismaModelName modelName then
        let pascalModelName := camelToPascalCase modelName
        match mappingGet modelToDomain pascalModelName with
        | none => some (Finding.modelNotFound pascalModelName)
        | some modelDomain =>
          if modelDomain = "" then some (Finding.modelNotFound pascalModelName)
          else if currentModule ≠ modelDomain then
            some (Finding.crossDomainAccess currentModule pascalModelName modelDomain)
          else none
      else none
  else none

mutual

/-- ESLint's traversal restricted to this rule: the `MemberExpression`
handler fires on every member-expression node of the tree; findings are
collected in visit order. -/
def visit (modelToDomain : List (String × String)) (currentModule : String) :
    Node → List Finding
  | Node.thisE => []
  | Node.ident _ => []
  | Node.lit => []
  | Node.member obj property =>
    (checkMemberExpression modelToDomain currentModule (Node.member obj property)).toList ++
      visit modelToDomain currentModule obj ++ visit modelToDomain currentModule property
  | Node.call callee args =>
    visit modelToDomain currentModule callee ++ visitList modelToDomain currentModule args

/-- Traversal of a node list (call arguments). -/
def visitList (modelToDomain : List (String × String)) (currentModule : String) :
    List Node → List Finding
  | [] => []
  | n :: rest =>
    visit modelToDomain currentModule n ++ visitList modelToDomain currentModule rest

end

/-! ## `no-cross-file-model-references` (src/rules, TS revision) -/

/-- JS truthiness of a `fieldType` value: `undefined`/`null` and the empty
string are falsy, every other string and every object is truthy. -/
def ftTruthy : FieldType → Bool
  | FieldType.undef => false
  | FieldType.strTy s => s ≠ ""
  | _ => true

/-- `extractBaseType(fieldType)` from `no-cross-file-model-references.ts`:
recursively unwrap `array`/`optional` wrappers; for other tagged objects
fall back to `fieldType.name || extractBaseType(fieldType.fieldType) || ''`;
anything without a `type` tag (or absent) yields `''`. -/
def extractBaseType : FieldType → String
  | FieldType.strTy s => s
  | FieldType.arrayTy inner => extractBaseType inner
  | FieldType.optionalTy inner => extractBaseType inner
  | FieldType.otherTy name inner =>
    let fromName := name.getD ""
    if fromName ≠ "" then fromName
    else extractBaseType inner
  | FieldType.noTypeTy => ""
  | FieldType.undef => ""

/-- The fixed primitive allow-list. -/
def primitiveTypes : List String :=
  ["String", "Int", "Float", "Boolean", "DateTime", "Json", "Bytes"]

/-- Insert into a JS `Set` modelled as a duplicate-free list (insertion
order of first occurrence preserved). -/
def insertUnique (seen : List String) (x : String) : List String :=
  if x ∈ seen then seen else seen ++ [x]

/-- The file-local declared-name set: names of every `model`/`enum`
declaration (with truthy name) in this one file. -/
def definedTypes (ast : List PrismaItem) : List String :=
  ast.foldl
    (fun s it =>
      if (it.itemType = "model" ∨ it.itemType = "enum") ∧ it.name ≠ "" then
        insertUnique s it.name
      else s)
    []

/-- The per-property body of the `Program` handler: report a
`crossFileReference` when a field's base type is non-empty, not a
primitive, and not declared in this file. -/
def checkFieldProperty (defined : List String) (p : PrismaProperty) : Option Finding :=
  if p.propType = "field" ∧ ftTruthy p.fieldType ∧ p.name ≠ "" then
    let referencedTypeName := extractBaseType p.fieldType
    if referencedTypeName = "" then none
    else if referencedTypeName ∈ primitiveTypes then none
    else if referencedTypeName ∈ defined then none
    else some (Finding.crossFileReference p.name referencedTypeName)
  else none

/-- The whole `Program` handler of `no-cross-file-model-references` on a
successfully parsed file: findings of every field of every model, in
declaration order (an absent `properties` array is skipped; an empty one
is truthy in JS and traversed). -/
def checkPrismaFile (ast : List PrismaItem) : List Finding :=
  let dts := definedTypes ast
  ast.flatMap
    (fun it =>
      if it.itemType = "model" then
        match it.properties with
        | some props => props.filterMap (checkFieldProperty dts)
        | none => []
      else [])

/-! ## `no-cross-schema-slonik-access`: SQL text processing -/

/-- JS `\s` restricted to the ASCII whitespace the queries use. -/
def isJsSpace (c : Char) : Bool :=
  c = ' ' ∨ c = '\t' ∨ c = '\n' ∨ c = '\r' ∨ c = '\x0b' ∨ c = '\x0c'

/-- JS `\w` character class: `[A-Za-z0-9_]`. -/
def isWordChar (c : Char) : Bool :=
  isAsciiLetter c ∨ isAsciiDigit c ∨ c = '_'

/-- The `--.*$` (global, multiline) line-comment removal: drop from each
`--` to the end of its line (the line terminator itself is kept). -/
def removeLineComments : Nat → List Char → List Char
  | 0, cs => cs
  | _ + 1, [] => []
  | fuel + 1, '-' :: '-' :: rest =>
    removeLineComments fuel (rest.dropWhile (fun c => c ≠ '\n' ∧ c ≠ '\r'))
  | fuel + 1, c :: rest => c :: removeLineComments fuel rest

/-- Scan forward to just past the next block-comment closer, if any. -/
def dropToBlockClose : List Char → Option (List Char)
  | '*' :: '/' :: rest => some rest
  | _ :: rest => dropToBlockClose rest
  | [] => none

/-- The lazy block-comment removal (`\x2f\x2a` up to the nearest
following `\x2a\x2f`, globally): each block comment is dropped; an
unterminated opener is left in place. -/
def removeBlockComments : Nat → List Char → List Char
  | 0, cs => cs
  | _ + 1, [] => []
  | fuel + 1, '/' :: '*' :: rest =>
    match dropToBlockClose rest with
    | some after => removeBlockComments fuel after
    | none => '/' :: '*' :: rest
  | fuel + 1, c :: rest => c :: removeBlockComments fuel rest

/-- `sql.replace(/\s+/g, ' ')`: collapse whitespace runs to one space. -/
def normalizeWsAux : List Char → Bool → List Char
  | [], _ => []
  | c :: rest, prevSpace =>
    if isJsSpace c then
      if prevSpace then normalizeWsAux rest true
      else ' ' :: normalizeWsAux rest true
    else c :: normalizeWsAux rest false

/-- JS `s.trim()` on the character list. -/
def trimChars (cs : List Char) : List Char :=
  ((cs.dropWhile isJsSpace).reverse.dropWhile isJsSpace).reverse

/-- The `cleanSql` preprocessing of `extractTableNames`. -/
def cleanSql (sql : String) : List Char :=
  let noLine := removeLineComments sql.data.length sql.data
  let noBlock := removeBlockComments noLine.length noLine
  trimChars (normalizeWsAux noBlock false)

/-- Case-insensitive literal match of `pat` at the head of `cs`
(ASCII fold), returning the remainder. -/
def matchCI : List Char → List Char → Option (List Char)
  | [], cs => some cs
  | _ :: _, [] => none
  | k :: ks, c :: cs => if jsToLowerChar k = jsToLowerChar c then matchCI ks cs else none

/-- `\s+`: at least one whitespace character, consumed greedily. -/
def skipSpaces1 : List Char → Option (List Char)
  | [] => none
  | c :: cs => if isJsSpace c then some (cs.dropWhile isJsSpace) else none

/-- Match a keyword sequence, each keyword followed by `\s+`
(e.g. `INSERT\s+INTO\s+`). -/
def matchKwSeq : List (List Char) → List Char → Option (List Char)
  | [], cs => some cs
  | k :: ks, cs =>
    match matchCI k cs with
    | none => none
    | some r =>
      match skipSpaces1 r with
      | none => none
      | some r2 => matchKwSeq ks r2

/-- The capture part `(?:(\w+)\.)?(\w+)` of each pattern: an optional
`schema.` prefix and the table identifier, with the regex backtracking
collapsing to: take the maximal word run; if a `.` and a further word
character follow, it is the schema and the next word run is the table,
otherwise the run itself is the table. -/
def matchTablePart (cs : List Char) : Option (Option String × String × List Char) :=
  match cs with
  | [] => none
  | c :: rest =>
    if isWordChar c then
      match (c :: rest).dropWhile isWordChar with
      | '.' :: r2 =>
        match r2 with
        | d :: r3 =>
          if isWordChar d then
            some (some (String.mk ((c :: rest).takeWhile isWordChar)),
              String.mk ((d :: r3).takeWhile isWordChar), (d :: r3).dropWhile isWordChar)
          else
            some (none, String.mk ((c :: rest).takeWhile isWordChar),
              (c :: rest).dropWhile isWordChar)
        | [] =>
          some (none, String.mk ((c :: rest).takeWhile isWordChar),
            (c :: rest).dropWhile isWordChar)
      | _ =>
        some (none, String.mk ((c :: rest).takeWhile isWordChar),
          (c :: rest).dropWhile isWordChar)
    else none

/-- Try one whole pattern (keywords then capture) at this position. -/
def matchPatAt (kws : List (List Char)) (cs : List Char) :
    Option (Option String × String × List Char) :=
  (matchKwSeq kws cs).bind matchTablePart

/-- `pattern.exec` in a `while` loop with the `g` flag: successive
leftmost matches, resuming after each match.  The fuel is the string
length; every match consumes at least the first keyword character, so the
fuel never runs out before the scan completes. -/
def scanPattern (kws : List (List Char)) : Nat → List Char → List (Option String × String)
  | 0, _ => []
  | _ + 1, [] => []
  | fuel + 1, c :: rest =>
    match matchPatAt kws (c :: rest) with
    | some (os, t, after) => (os, t) :: scanPattern kws fuel after
    | none => scanPattern kws fuel rest

/-- The five clause patterns, as keyword sequences. -/
def clausePatterns : List (List (List Char)) :=
  [["FROM".data], ["JOIN".data], ["INSERT".data, "INTO".data],
   ["UPDATE".data], ["DELETE".data, "FROM".data]]

/-- `schema.table` or bare `table` formatting of one captured reference. -/
def formatRef : Option String × String → String
  | (some schema, table) => schema ++ "." ++ table
  | (none, table) => table

/-- The per-pattern loop body: every match whose captured table is truthy
and not the literal word `select` contributes one reference. -/
def runPattern (kws : List (List Char)) (cs : List Char) : List String :=
  (scanPattern kws cs.length cs).filterMap
    (fun p => if p.2 ≠ "" ∧ jsToLower p.2 ≠ "select" then some (formatRef p) else none)

/-- `[...new Set(names)]`: duplicates removed, first-occurrence order. -/
def dedupFirst (l : List String) : List String :=
  l.foldl insertUnique []

/-- `extractTableNames(sql)` from `no-cross-schema-slonik-access.ts`. -/
def extractTableNames (sql : String) : List String :=
  let clean := cleanSql sql
  dedupFirst ((clausePatterns.map (fun kws => runPattern kws clean)).flatten)

/-! ## `no-cross-schema-slonik-access`: classification and handler -/

/-- The result object of `isTableAccessViolation` (optional fields model
absent JS properties). -/
structure Violation where
  isViolation : Bool
  schema : Option String
  table : Option String
  reason : Option String
deriving DecidableEq, Repr

/-- First segment of `split(sep, 2)`. -/
def splitPart0 (sep : Char) (s : String) : String :=
  String.mk ((splitOnChar sep s.data).getD 0 [])

/-- Second segment of `split(sep, 2)`. -/
def splitPart1 (sep : Char) (s : String) : String :=
  String.mk ((splitOnChar sep s.data).getD 1 [])

/-- `isTableAccessViolation(tableName, currentModule)` from
`no-cross-schema-slonik-access.ts`. -/
def isTableAccessViolation (tableName : String) (currentModule : String) : Violation :=
  if tableName.data.contains '.' then
    let schema := splitPart0 '.' tableName
    let table := splitPart1 '.' tableName
    if schema ≠ "" ∧ schema ≠ currentModule then
      { isViolation := true, schema := some schema, table := some table,
        reason := some "crossSchema" }
    else { isViolation := false, schema := none, table := none, reason := none }
  else
    { isViolation := true, schema := none, table := some tableName,
      reason := some "unqualified" }

/-- JS truthiness of an optional string property. -/
def otruthy : Option String → Bool
  | some s => s ≠ ""
  | none => false

/-- The per-table-name body of the `forEach` in the
`TaggedTemplateExpression` handler: at most one report per reference. -/
def checkTableName (currentModule : String) (tableName : String) : Option Finding :=
  let v := isTableAccessViolation tableName currentModule
  if v.isViolation then
    if v.reason = some "crossSchema" ∧ otruthy v.schema ∧ otruthy v.table then
      some (Finding.crossSchemaAccess currentModule (v.schema.getD "") (v.table.getD ""))
    else if v.reason = some "unqualified" ∧ otruthy v.table then
      some (Finding.unqualifiedTable currentModule (v.table.getD ""))
    else none
  else none

/-- All findings for one flattened SQL string. -/
def checkSqlText (currentModule : String) (sql : String) : List Finding :=
  (extractTableNames sql).filterMap (checkTableName currentModule)

/-- A `TaggedTemplateExpression`: the tag node, the raw text of the
`quasis`, and the number of interpolated expressions (their content is
never read by the rule). -/
structure TaggedTemplate where
  tag : Node
  quasis : List String
  exprCount : Nat

/-- `isSlonikSqlCall(node)`: the tag is the bare identifier `sql` or a
member expression whose property is the identifier `sql`. -/
def isSlonikSqlCall : Node → Bool
  | Node.ident n => n = "sql"
  | Node.member _ (Node.ident n) => n = "sql"
  | _ => false

/-- The indexed `forEach` that flattens the template: after each literal
part whose index is below the expression count, append the placeholder. -/
def buildSqlFromQuasis (exprCount : Nat) : List String → Nat → String
  | [], _ => ""
  | q :: rest, i =>
    q ++ (if i < exprCount then " ? " else "") ++ buildSqlFromQuasis exprCount rest (i + 1)

/-- `extractSqlFromTemplate(node)`: concatenate the literal parts,
substituting the fixed placeholder for each of the `exprCount`
interpolated expressions. -/
def extractSqlFromTemplate (quasis : List String) (exprCount : Nat) : String :=
  buildSqlFromQuasis exprCount quasis 0

/-- The `TaggedTemplateExpression` handler of
`no-cross-schema-slonik-access` for a file already past the module gate. -/
def checkTaggedTemplate (currentModule : String) (node : TaggedTemplate) : List Finding :=
  if isSlonikSqlCall node.tag then
    checkSqlText currentModule (extractSqlFromTemplate node.quasis node.exprCount)
  else []

/-! ## Specification-side auxiliary definitions -/

/-- A field type that is the base name `s` wrapped in Array/Optional
wrappers to any depth (the spec's recursive-unwrapping notion). -/
inductive WrapsTo : FieldType → String → Prop where
  | base (s : String) : WrapsTo (FieldType.strTy s) s
  | arr {t : FieldType} {s : String} : WrapsTo t s → WrapsTo (FieldType.arrayTy t) s
  | opt {t : FieldType} {s : String} : WrapsTo t s → WrapsTo (FieldType.optionalTy t) s

/-- The AST of the expression `this.prisma.project.findMany()`. -/
def thisPrismaProjectFindMany : Node :=
  Node.call
    (Node.member
      (Node.member (Node.member Node.thisE (Node.ident "prisma")) (Node.ident "project"))
      (Node.ident "findMany"))
    []

/-- A recognized SQL template whose table position is an interpolated
expression: the tagged template for `SELECT * FROM ${table}`. -/
def dynamicTableTemplate : TaggedTemplate :=
  { tag := Node.ident "sql", quasis := ["SELECT * FROM ", ""], exprCount := 1 }

/-- A recognized SQL template with two distinct out-of-domain qualified
tables, one of them referenced twice. -/
def multiJoinTemplate : TaggedTemplate :=
  { tag := Node.ident "sql",
    quasis := ["SELECT * FROM auth.users JOIN billing.accounts ON x JOIN auth.users"],
    exprCount := 0 }

/-! ## Helper lemmas -/

theorem jsUpperCharExpansion_ne_nil (c : Char) : jsUpperCharExpansion c ≠ [] := by
  rw [jsUpperCharExpansion]
  split_ifs <;> simp

/-- The head of an uppercase expansion is a character whose own uppercase
expansion is itself. -/
theorem jsUpperCharExpansion_head (c d : Char) (tl : List Char)
    (h : jsUpperCharExpansion c = d :: tl) : jsUpperCharExpansion d = [d] := by
  rw [jsUpperCharExpansion] at h
  by_cases h1 : c.toNat ≥ 97 ∧ c.toNat ≤ 122
  · rw [if_pos h1] at h
    obtain ⟨hd, -⟩ := List.cons.injEq .. ▸ h
    rw [← hd]
    obtain ⟨ha, hb⟩ := h1
    set n := c.toNat with hn
    interval_cases n <;> decide
  · rw [if_neg h1] at h
    by_cases h2 : c = 'ß'
    · rw [if_pos h2] at h
      obtain ⟨hd, -⟩ := List.cons.injEq .. ▸ h
      rw [← hd]
      decide
    · rw [if_neg h2] at h
      obtain ⟨hd, -⟩ := List.cons.injEq .. ▸ h
      rw [← hd, jsUpperCharExpansion, if_neg h1, if_neg h2]

/-- On ASCII input the uppercase expansion is a single character. -/
theorem jsUpperCharExpansion_ascii (c : Char) (h : c.toNat ≤ 127) :
    ∃ d, jsUpperCharExpansion c = [d] := by
  rw [jsUpperCharExpansion]
  split_ifs with h1 h2
  · exact ⟨_, rfl⟩
  · rw [h2] at h
    exact absurd h (by decide)
  · exact ⟨c, rfl⟩

theorem isPrismaModelName_ne_empty {name : String}
    (h : isPrismaModelName name = true) : name ≠ "" := by
  intro he
  rw [he] at h
  exact absurd h (by decide)

/-- Unfolding `checkMemberExpression` past a recognized access with an
identifier property that passes the name classifier. -/
theorem checkMemberExpression_resolved (modelToDomain : List (String × String))
    (currentModule : String) (obj : Node) (name : String)
    (hAccess : isPrismaClientAccess (Node.member obj (Node.ident name)) = true)
    (hName : isPrismaModelName name = true) :
    checkMemberExpression modelToDomain currentModule (Node.member obj (Node.ident name)) =
      match mappingGet modelToDomain (camelToPascalCase name) with
      | none => some (Finding.modelNotFound (camelToPascalCase name))
      | some modelDomain =>
        if modelDomain = "" then some (Finding.modelNotFound (camelToPascalCase name))
        else if currentModule ≠ modelDomain then
          some (Finding.crossDomainAccess currentModule (camelToPascalCase name) modelDomain)
        else none := by
  rw [checkMemberExpression, if_pos hAccess]
  show (match some name with
    | none => none
    | some modelName =>
      if modelName ≠ "" ∧ isPrismaModelName modelName then _ else none) = _
  simp only []
  rw [if_pos ⟨isPrismaModelName_ne_empty hName, hName⟩]

/-! ## Claim theorems -/

/-- C8 counterexample: the sharp s uppercases to `SS`, so
`camelToPascalCase "ßx" = "SSx"` — the length changes and the character
positions after the first do not survive unchanged. -/
theorem camelToPascalCase_multichar_counterexample :
    camelToPascalCase "ßx" = "SSx" ∧
    (camelToPascalCase "ßx").length ≠ ("ßx" : String).length ∧
    (camelToPascalCase "ßx").data.tail ≠ ("ßx" : String).data.tail := by
  decide

/-- C8 (amended): `camelToPascalCase` is idempotent on every string and
replaces exactly the first character by its uppercase expansion, leaving
the remainder unchanged; whenever the first character is ASCII — where
the uppercase of one character is one character — the output differs
from the input in at most the first character, preserving the tail and
the length.  `oAuthToken` maps to `OAuthToken`. -/
theorem camelToPascalCase_idem_first_char_expansion (s : String) :
    camelToPascalCase (camelToPascalCase s) = camelToPascalCase s ∧
    (∀ (c : Char) (rest : List Char), s.data = c :: rest →
      camelToPascalCase s = String.mk (jsUpperCharExpansion c ++ rest)) ∧
    (∀ (c : Char) (rest : List Char), s.data = c :: rest → c.toNat ≤ 127 →
      (camelToPascalCase s).data.tail = s.data.tail ∧
        (camelToPascalCase s).length = s.length) ∧
    camelToPascalCase "oAuthToken" = "OAuthToken" := by
  obtain ⟨data⟩ := s
  cases data with
  | nil =>
    refine ⟨rfl, ?_, ?_, by decide⟩
    · intro c rest h
      exact absurd h (by simp)
    · intro c rest h
      exact absurd h (by simp)
  | cons c rest =>
    refine ⟨?_, ?_, ?_, by decide⟩
    · show camelToPascalCase (String.mk (jsUpperCharExpansion c ++ rest)) =
        String.mk (jsUpperCharExpansion c ++ rest)
      match hexp : jsUpperCharExpansion c with
      | [] => exact absurd hexp (jsUpperCharExpansion_ne_nil c)
      | d :: tl =>
        show String.mk (jsUpperCharExpansion d ++ (tl ++ rest)) =
          String.mk ((d :: tl) ++ rest)
        rw [jsUpperCharExpansion_head c d tl hexp]
        rfl
    · intro c2 rest2 h
      obtain ⟨hc, hrest⟩ := List.cons.injEq .. ▸ h
      rw [← hc, ← hrest]
      rfl
    · intro c2 rest2 h hascii
      obtain ⟨hc, -⟩ := List.cons.injEq .. ▸ h
      obtain ⟨d, hd⟩ := jsUpperCharExpansion_ascii c (hc.symm ▸ hascii)
      constructor
      · show (jsUpperCharExpansion c ++ rest).tail = rest
        rw [hd]
        rfl
      · show (jsUpperCharExpansion c ++ rest).length = (c :: rest).length
        rw [hd]
        simp

/-- C8 witness: the amended properties exercised at `oAuthToken`, whose
first character is ASCII. -/
theorem camelToPascalCase_idem_first_char_expansion_witness :
    camelToPascalCase (camelToPascalCase "oAuthToken") = camelToPascalCase "oAuthToken" ∧
    (camelToPascalCase "oAuthToken").data.tail = ("oAuthToken" : String).data.tail ∧
    (camelToPascalCase "oAuthToken").length = ("oAuthToken" : String).length := by
  obtain ⟨hidem, -, hascii, -⟩ := camelToPascalCase_idem_first_char_expansion "oAuthToken"
  obtain ⟨htail, hlen⟩ := hascii 'o' "AuthToken".data (by decide) (by decide)
  exact ⟨hidem, htail, hlen⟩

/-- C9: a recognized client access whose final property is not a plain
identifier extracts no model name and yields no finding of any kind. -/
theorem computed_property_yields_no_finding (modelToDomain : List (String × String))
    (currentModule : String) (obj property : Node)
    (hAccess : isPrismaClientAccess (Node.member obj property) = true)
    (hNotIdent : ∀ n : String, property ≠ Node.ident n) :
    checkMemberExpression modelToDomain currentModule (Node.member obj property) = none := by
  rw [checkMemberExpression, if_pos hAccess]
  have hname : getModelNameFromMemberExpression (Node.member obj property) = none := by
    cases property with
    | ident n => exact absurd rfl (hNotIdent n)
    | thisE => rfl
    | member o p => rfl
    | call f a => rfl
    | lit => rfl
  rw [hname]

/-- C9 witness: `prisma[<literal>]` (property a string literal, not an
identifier) produces no finding. -/
theorem computed_property_yields_no_finding_witness :
    checkMemberExpression [] "auth" (Node.member (Node.ident "prisma") Node.lit) = none :=
  computed_property_yields_no_finding [] "auth" (Node.ident "prisma") Node.lit
    rfl (fun _ h => Node.noConfusion h)

/-- C2: an access from a module other than `shared` to an entity the
Domain Index resolves to the `shared` domain is reported as
`CrossDomainAccess` — the shared domain is not auto-exempted. -/
theorem shared_domain_not_exempted (modelToDomain : List (String × String))
    (currentModule : String) (obj : Node) (name : String)
    (hAccess : isPrismaClientAccess (Node.member obj (Node.ident name)) = true)
    (hName : isPrismaModelName name = true)
    (hLookup : mappingGet modelToDomain (camelToPascalCase name) = some "shared")
    (hMod : currentModule ≠ "shared") :
    checkMemberExpression modelToDomain currentModule (Node.member obj (Node.ident name)) =
      some (Finding.crossDomainAccess currentModule (camelToPascalCase name) "shared") := by
  rw [checkMemberExpression_resolved modelToDomain currentModule obj name hAccess hName,
    hLookup]
  show (if "shared" = "" then _ else if currentModule ≠ "shared" then _ else _) = _
  rw [if_neg (by decide : ¬("shared" : String) = ""), if_pos hMod]

/-- C2 witness: `this.prisma.auditLog` from module `auth` with
`AuditLog → shared` in the index yields a CrossDomainAccess finding. -/
theorem shared_domain_not_exempted_witness :
    checkMemberExpression [("AuditLog", "shared")] "auth"
      (Node.member (Node.member Node.thisE (Node.ident "prisma")) (Node.ident "auditLog")) =
      some (Finding.crossDomainAccess "auth" "AuditLog" "shared") := by
  have h := shared_domain_not_exempted [("AuditLog", "shared")] "auth"
    (Node.member Node.thisE (Node.ident "prisma")) "auditLog"
    (by decide) (by decide) (by decide) (by decide)
  rw [h]
  decide

/-- C7: visiting `this.prisma.project.findMany()` with `Project` absent
from the Domain Index yields exactly one ModelNotFound finding, whatever
the current module is; the outer `.findMany` access is not treated as
client access. -/
theorem model_not_found_exactly_once (modelToDomain : List (String × String))
    (currentModule : String)
    (habs : mappingGet modelToDomain "Project" = none) :
    visit modelToDomain currentModule thisPrismaProjectFindMany =
      [Finding.modelNotFound "Project"] := by
  have hpc : camelToPascalCase "project" = "Project" := by decide
  have hcheck : checkMemberExpression modelToDomain currentModule
      (Node.member (Node.member Node.thisE (Node.ident "prisma")) (Node.ident "project")) =
      some (Finding.modelNotFound "Project") := by
    rw [checkMemberExpression_resolved _ _ _ _ (by decide) (by decide), hpc, habs]
  have houter : checkMemberExpression modelToDomain currentModule
      (Node.member
        (Node.member (Node.member Node.thisE (Node.ident "prisma")) (Node.ident "project"))
        (Node.ident "findMany")) = none := by
    rw [checkMemberExpression, if_neg (by decide)]
  have hinner : checkMemberExpression modelToDomain currentModule
      (Node.member Node.thisE (Node.ident "prisma")) = none := by
    rw [checkMemberExpression, if_neg (by decide)]
  simp [thisPrismaProjectFindMany, visit, visitList, hcheck, houter, hinner]

/-- C7 witness: the concrete instance with an empty index and module
`auth`. -/
theorem model_not_found_exactly_once_witness :
    visit [] "auth" thisPrismaProjectFindMany = [Finding.modelNotFound "Project"] :=
  model_not_found_exactly_once [] "auth" rfl

/-- C1 counterexample: with a first schema file that parses (declaring
model `User` in domain `auth`) and a second whose parse throws, the
returned mapping is NOT empty — `User` is still mapped. -/
theorem partial_mapping_counterexample :
    buildModelToDomainMapping
        (some [⟨"auth", some [⟨"model", "User", none⟩]⟩, ⟨"billing", none⟩]) ≠ [] ∧
      mappingGet
        (buildModelToDomainMapping
          (some [⟨"auth", some [⟨"model", "User", none⟩]⟩, ⟨"billing", none⟩])) "User" =
        some "auth" := by
  decide

/-- The mapping loop stops at the first file whose read/parse throws and
returns the accumulator built from the earlier files. -/
theorem buildMappingLoop_stops (f : SchemaFile) (post : List SchemaFile)
    (hbad : f.parsed = none) :
    ∀ (pre : List SchemaFile) (acc : List (String × String)),
      (∀ g ∈ pre, g.parsed.isSome) →
      buildMappingLoop (pre ++ f :: post) acc = buildMappingLoop pre acc
  | [], acc, _ => by
    show buildMappingLoop (f :: post) acc = acc
    simp only [buildMappingLoop, hbad]
  | g :: rest, acc, hok => by
    obtain ⟨items, hitems⟩ := Option.isSome_iff_exists.mp (hok g (List.mem_cons_self g rest))
    show buildMappingLoop (g :: (rest ++ f :: post)) acc = buildMappingLoop (g :: rest) acc
    simp only [buildMappingLoop, hitems]
    exact buildMappingLoop_stops f post hbad rest _
      (fun x hx => hok x (List.mem_cons_of_mem g hx))

/-- C1 amended: on an enumeration failure the mapping is empty, but on a
parse failure the function returns the partial mapping accumulated from
the files processed before the first failing one — earlier-recorded
models DO appear. -/
theorem failure_returns_partial_mapping :
    buildModelToDomainMapping none = [] ∧
    ∀ (pre : List SchemaFile) (f : SchemaFile) (post : List SchemaFile),
      (∀ g ∈ pre, g.parsed.isSome) → f.parsed = none →
      buildModelToDomainMapping (some (pre ++ f :: post)) = buildMappingLoop pre [] := by
  refine ⟨rfl, fun pre f post hok hbad => ?_⟩
  show buildMappingLoop (pre ++ f :: post) [] = buildMappingLoop pre []
  exact buildMappingLoop_stops f post hbad pre [] hok

/-- C1 amended witness: the concrete two-file instance — the partial
mapping is exactly the one built from the first file. -/
theorem failure_returns_partial_mapping_witness :
    buildModelToDomainMapping
        (some [⟨"auth", some [⟨"model", "User", none⟩]⟩, ⟨"billing", none⟩]) =
      [("User", "auth")] := by
  have h := failure_returns_partial_mapping.2
    [⟨"auth", some [⟨"model", "User", none⟩]⟩] ⟨"billing", none⟩ []
    (by decide) rfl
  exact h.trans (by decide)

/-- A `WrapsTo` wrapper chain unwraps to its base name. -/
theorem extractBaseType_of_wrapsTo {t : FieldType} {s : String} (h : WrapsTo t s) :
    extractBaseType t = s := by
  induction h with
  | base s => rfl
  | arr _ ih => rw [extractBaseType, ih]
  | opt _ ih => rw [extractBaseType, ih]

/-- The folded declared-name accumulator only ever holds non-empty
names. -/
theorem definedTypes_foldl_ne_empty :
    ∀ (ast : List PrismaItem) (acc : List String), (∀ y ∈ acc, y ≠ "") →
      ∀ z ∈ ast.foldl
        (fun s it =>
          if (it.itemType = "model" ∨ it.itemType = "enum") ∧ it.name ≠ "" then
            insertUnique s it.name
          else s) acc, z ≠ ""
  | [], _, hacc, z, hz => hacc z hz
  | it :: rest, acc, hacc, z, hz => by
    refine definedTypes_foldl_ne_empty rest _ ?_ z hz
    intro y hy
    simp only [] at hy
    by_cases hc : (it.itemType = "model" ∨ it.itemType = "enum") ∧ it.name ≠ ""
    · rw [if_pos hc] at hy
      rw [insertUnique] at hy
      by_cases hmem : it.name ∈ acc
      · exact hacc y (by rwa [if_pos hmem] at hy)
      · rw [if_neg hmem] at hy
        rcases List.mem_append.mp hy with hy | hy
        · exact hacc y hy
        · rw [List.mem_singleton.mp hy]
          exact hc.2
    · exact hacc y (by rwa [if_neg hc] at hy)

/-- Names in the file-local declared set are non-empty. -/
theorem mem_definedTypes_ne_empty {ast : List PrismaItem} {x : String}
    (h : x ∈ definedTypes ast) : x ≠ "" :=
  definedTypes_foldl_ne_empty ast [] (by simp) x h

/-- C4: a field whose referenced type — after unwrapping Array/Optional
wrappers to any depth — is declared in the same file produces no
CrossFileReference finding. -/
theorem same_file_reference_no_finding (ast : List PrismaItem) (p : PrismaProperty)
    (b : String) (hw : WrapsTo p.fieldType b) (hdecl : b ∈ definedTypes ast) :
    checkFieldProperty (definedTypes ast) p = none := by
  rw [checkFieldProperty]
  by_cases hc : p.propType = "field" ∧ ftTruthy p.fieldType ∧ p.name ≠ ""
  · rw [if_pos hc]
    show (if extractBaseType p.fieldType = "" then none
      else if extractBaseType p.fieldType ∈ primitiveTypes then none
      else if extractBaseType p.fieldType ∈ definedTypes ast then none
      else some (Finding.crossFileReference p.name (extractBaseType p.fieldType))) = none
    rw [extractBaseType_of_wrapsTo hw, if_neg (mem_definedTypes_ne_empty hdecl)]
    by_cases hp : b ∈ primitiveTypes
    · rw [if_pos hp]
    · rw [if_neg hp, if_pos hdecl]
  · rw [if_neg hc]

/-- C4 witness: `posts Post[]?` wrapped twice, with `Post` declared in
the same file. -/
theorem same_file_reference_no_finding_witness :
    checkFieldProperty
      (definedTypes
        [⟨"model", "User", some []⟩, ⟨"model", "Post", some []⟩])
      ⟨"field", "posts",
        FieldType.arrayTy (FieldType.optionalTy (FieldType.strTy "Post"))⟩ = none :=
  same_file_reference_no_finding
    [⟨"model", "User", some []⟩, ⟨"model", "Post", some []⟩]
    ⟨"field", "posts", FieldType.arrayTy (FieldType.optionalTy (FieldType.strTy "Post"))⟩
    "Post" (WrapsTo.arr (WrapsTo.opt (WrapsTo.base "Post"))) (by decide)

/-! ## Structure of extracted table references -/

theorem list_all_takeWhile (p : Char → Bool) :
    ∀ l : List Char, (l.takeWhile p).all p = true
  | [] => rfl
  | c :: rest => by
    by_cases h : p c = true
    · rw [List.takeWhile_cons_of_pos h, List.all_cons, h, Bool.true_and]
      exact list_all_takeWhile p rest
    · rw [List.takeWhile_cons_of_neg h]
      rfl

theorem mk_cons_ne_empty (c : Char) (l : List Char) : String.mk (c :: l) ≠ "" :=
  fun h => List.noConfusion (congrArg String.data h)

/-- Whatever `matchTablePart` captures: the table is a non-empty word
run, and so is the schema when present. -/
theorem matchTablePart_shape :
    ∀ (cs : List Char) (os : Option String) (t : String) (r : List Char),
      matchTablePart cs = some (os, t, r) →
      t ≠ "" ∧ t.data.all isWordChar = true ∧
        ∀ s, os = some s → (s ≠ "" ∧ s.data.all isWordChar = true)
  | [], os, t, r, h => absurd h (by simp [matchTablePart])
  | c :: rest, os, t, r, h => by
    simp only [matchTablePart] at h
    by_cases hw : isWordChar c = true
    swap
    · rw [if_neg hw] at h
      exact absurd h (by simp)
    rw [if_pos hw] at h
    have hw1ne : String.mk ((c :: rest).takeWhile isWordChar) ≠ "" := by
      rw [List.takeWhile_cons_of_pos hw]
      exact mk_cons_ne_empty _ _
    have hw1all : (String.mk ((c :: rest).takeWhile isWordChar)).data.all isWordChar = true :=
      list_all_takeWhile isWordChar (c :: rest)
    have bare : ∀ w : List Char,
        (some (none, String.mk ((c :: rest).takeWhile isWordChar), w) :
            Option (Option String × String × List Char)) = some (os, t, r) →
        t ≠ "" ∧ t.data.all isWordChar = true ∧
          ∀ s, os = some s → (s ≠ "" ∧ s.data.all isWordChar = true) := by
      intro w hw2
      simp only [Option.some.injEq, Prod.mk.injEq] at hw2
      obtain ⟨ho, ht, _⟩ := hw2
      refine ⟨ht ▸ hw1ne, ht ▸ hw1all, ?_⟩
      intro s hs
      rw [← ho] at hs
      exact absurd hs (by simp)
    split at h
    · split at h
      · rename_i d r3 heq2
        by_cases hwd : isWordChar d = true
        · rw [if_pos hwd] at h
          simp only [Option.some.injEq, Prod.mk.injEq] at h
          obtain ⟨ho, ht, _⟩ := h
          refine ⟨?_, ?_, ?_⟩
          · rw [← ht, List.takeWhile_cons_of_pos hwd]
            exact mk_cons_ne_empty _ _
          · rw [← ht]
            exact list_all_takeWhile isWordChar (d :: r3)
          · intro s hs
            rw [← ho, Option.some.injEq] at hs
            exact ⟨hs ▸ hw1ne, hs ▸ hw1all⟩
        · rw [if_neg hwd] at h
          exact bare _ h
      · exact bare _ h
    · exact bare _ h

/-- Every pair produced by a pattern scan satisfies the capture shape. -/
theorem scanPattern_shape (kws : List (List Char)) :
    ∀ (fuel : Nat) (cs : List Char) (pr : Option String × String),
      pr ∈ scanPattern kws fuel cs →
      pr.2 ≠ "" ∧ pr.2.data.all isWordChar = true ∧
        ∀ s, pr.1 = some s → (s ≠ "" ∧ s.data.all isWordChar = true)
  | 0, cs, pr, h => absurd h (by simp [scanPattern])
  | _ + 1, [], pr, h => absurd h (by simp [scanPattern])
  | fuel + 1, c :: rest, pr, h => by
    rw [scanPattern] at h
    match hm : matchPatAt kws (c :: rest) with
    | some (os, t, after) =>
      rw [hm] at h
      rcases List.mem_cons.mp h with he | hmem
      · obtain ⟨cs2, _, ht⟩ := Option.bind_eq_some.mp hm
        exact he ▸ matchTablePart_shape cs2 os t after ht
      · exact scanPattern_shape kws fuel after pr hmem
    | none =>
      rw [hm] at h
      exact scanPattern_shape kws fuel rest pr h

theorem mem_insertUnique {acc : List String} {y x : String}
    (h : x ∈ insertUnique acc y) : x ∈ acc ∨ x = y := by
  rw [insertUnique] at h
  by_cases hm : y ∈ acc
  · exact Or.inl (by rwa [if_pos hm] at h)
  · rw [if_neg hm] at h
    rcases List.mem_append.mp h with h | h
    · exact Or.inl h
    · exact Or.inr (List.mem_singleton.mp h)

theorem mem_foldl_insertUnique :
    ∀ (l acc : List String) (x : String), x ∈ l.foldl insertUnique acc → x ∈ acc ∨ x ∈ l
  | [], _, _, h => Or.inl h
  | y :: rest, acc, x, h => by
    rcases mem_foldl_insertUnique rest _ x h with h2 | h2
    · rcases mem_insertUnique h2 with h3 | h3
      · exact Or.inl h3
      · exact Or.inr (h3 ▸ List.mem_cons_self y rest)
    · exact Or.inr (List.mem_cons_of_mem y h2)

theorem mem_dedupFirst {l : List String} {x : String} (h : x ∈ dedupFirst l) : x ∈ l :=
  (mem_foldl_insertUnique l [] x h).resolve_left (by simp)

theorem nodup_foldl_insertUnique :
    ∀ (l acc : List String), acc.Nodup → (l.foldl insertUnique acc).Nodup
  | [], _, h => h
  | y :: rest, acc, h => by
    refine nodup_foldl_insertUnique rest _ ?_
    rw [insertUnique]
    by_cases hm : y ∈ acc
    · rwa [if_pos hm]
    · rw [if_neg hm]
      exact List.Nodup.append h (List.nodup_singleton y)
        (List.disjoint_singleton.mpr hm)

/-- The de-duplicated reference list is duplicate-free. -/
theorem extractTableNames_nodup (sql : String) : (extractTableNames sql).Nodup :=
  nodup_foldl_insertUnique _ [] List.nodup_nil

/-- Every extracted table reference is non-empty, and is either a pure
word run (a bare table) or contains a dot (a qualified reference). -/
theorem mem_extractTableNames_shape (sql : String) (x : String)
    (h : x ∈ extractTableNames sql) :
    x ≠ "" ∧ (x.data.all isWordChar = true ∨ '.' ∈ x.data) := by
  have hraw : x ∈ (clausePatterns.map (fun kws => runPattern kws (cleanSql sql))).flatten :=
    mem_dedupFirst h
  obtain ⟨l, hl, hx⟩ := List.mem_flatten.mp hraw
  obtain ⟨kws, _, hkl⟩ := List.mem_map.mp hl
  rw [← hkl] at hx
  rw [runPattern] at hx
  obtain ⟨pr, hpr, hsome⟩ := List.mem_filterMap.mp hx
  obtain ⟨htne, htall, hos⟩ := scanPattern_shape kws _ _ pr hpr
  by_cases hc : pr.2 ≠ "" ∧ jsToLower pr.2 ≠ "select"
  · rw [if_pos hc, Option.some.injEq] at hsome
    match hpr1 : pr.1 with
    | none =>
      have : formatRef pr = pr.2 := by
        obtain ⟨p1, p2⟩ := pr
        simp only at hpr1
        rw [hpr1, formatRef]
      rw [this] at hsome
      exact ⟨hsome ▸ htne, Or.inl (hsome ▸ htall)⟩
    | some s =>
      have : formatRef pr = s ++ "." ++ pr.2 := by
        obtain ⟨p1, p2⟩ := pr
        simp only at hpr1
        rw [hpr1, formatRef]
      rw [this] at hsome
      constructor
      · rw [← hsome]
        intro he
        have : (s ++ "." ++ pr.2).data = [] := congrArg String.data he
        rw [String.data_append, String.data_append] at this
        exact absurd this (by simp)
      · right
        rw [← hsome]
        rw [String.data_append, String.data_append]
        exact List.mem_append.mpr (Or.inl (List.mem_append.mpr (Or.inr (by simp))))
  · rw [if_neg hc] at hsome
    exact absurd hsome (by simp)

/-! ## SQL claims -/

/-- C5: every extracted table reference without a schema qualifier yields
an UnqualifiedTable finding with the current domain and the table name,
whatever the current domain is. -/
theorem unqualified_always_reported (currentModule : String) (node : TaggedTemplate)
    (r : String)
    (hTag : isSlonikSqlCall node.tag = true)
    (hmem : r ∈ extractTableNames (extractSqlFromTemplate node.quasis node.exprCount))
    (hnq : '.' ∉ r.data) :
    Finding.unqualifiedTable currentModule r ∈ checkTaggedTemplate currentModule node := by
  have hne : r ≠ "" := (mem_extractTableNames_shape _ r hmem).1
  have hnq2 : ¬ r.data.contains '.' = true := by
    simpa [List.contains] using hnq
  have hvio : isTableAccessViolation r currentModule =
      { isViolation := true, schema := none, table := some r,
        reason := some "unqualified" } := by
    rw [isTableAccessViolation, if_neg hnq2]
  rw [checkTaggedTemplate, if_pos hTag, checkSqlText]
  refine List.mem_filterMap.mpr ⟨r, hmem, ?_⟩
  simp only [checkTableName, hvio]
  simp [otruthy, hne]

/-- C5 witness: `SELECT * FROM users` in module `auth` reports the
unqualified bare table. -/
theorem unqualified_always_reported_witness :
    Finding.unqualifiedTable "auth" "users" ∈
      checkTaggedTemplate "auth"
        { tag := Node.ident "sql", quasis := ["SELECT * FROM users"], exprCount := 0 } :=
  unqualified_always_reported "auth"
    { tag := Node.ident "sql", quasis := ["SELECT * FROM users"], exprCount := 0 }
    "users" rfl (by decide) (by decide)

theorem filterMap_eq_map_of_forall {α β : Type} {l : List α} {f : α → Option β} {g : α → β}
    (h : ∀ x ∈ l, f x = some (g x)) : l.filterMap f = l.map g := by
  induction l with
  | nil => rfl
  | cons a rest ih =>
    rw [List.filterMap_cons, h a (List.mem_cons_self a rest), List.map_cons,
      ih (fun x hx => h x (List.mem_cons_of_mem a hx))]

/-- C3: when every extracted reference is schema-qualified with a schema
different from the current domain, the handler emits exactly one
CrossSchemaAccess finding per distinct reference, in extraction order,
and the reference list is duplicate-free. -/
theorem cross_schema_one_per_distinct_table (currentModule : String)
    (node : TaggedTemplate)
    (hTag : isSlonikSqlCall node.tag = true)
    (hAll : ∀ r ∈ extractTableNames (extractSqlFromTemplate node.quasis node.exprCount),
      '.' ∈ r.data ∧ splitPart0 '.' r ≠ "" ∧
        splitPart0 '.' r ≠ currentModule ∧ splitPart1 '.' r ≠ "") :
    checkTaggedTemplate currentModule node =
        (extractTableNames (extractSqlFromTemplate node.quasis node.exprCount)).map
          (fun r =>
            Finding.crossSchemaAccess currentModule (splitPart0 '.' r) (splitPart1 '.' r)) ∧
      (checkTaggedTemplate currentModule node).length =
        (extractTableNames (extractSqlFromTemplate node.quasis node.exprCount)).length ∧
      (extractTableNames (extractSqlFromTemplate node.quasis node.exprCount)).Nodup := by
  have hmap : checkTaggedTemplate currentModule node =
      (extractTableNames (extractSqlFromTemplate node.quasis node.exprCount)).map
        (fun r =>
          Finding.crossSchemaAccess currentModule (splitPart0 '.' r) (splitPart1 '.' r)) := by
    rw [checkTaggedTemplate, if_pos hTag, checkSqlText]
    refine filterMap_eq_map_of_forall ?_
    intro r hr
    obtain ⟨hdot, hs, hsm, ht⟩ := hAll r hr
    have hdot2 : r.data.contains '.' = true := by
      simpa [List.contains] using hdot
    have hvio : isTableAccessViolation r currentModule =
        { isViolation := true, schema := some (splitPart0 '.' r),
          table := some (splitPart1 '.' r), reason := some "crossSchema" } := by
      rw [isTableAccessViolation, if_pos hdot2, if_pos ⟨hs, hsm⟩]
    simp only [checkTableName, hvio]
    simp [otruthy, hs, ht]
  exact ⟨hmap, by rw [hmap, List.length_map], extractTableNames_nodup _⟩

/-- C3 witness: the multi-join query referencing `auth.users` twice and
`billing.accounts` once, from module `organization`. -/
theorem cross_schema_one_per_distinct_table_witness :
    checkTaggedTemplate "organization" multiJoinTemplate =
        (extractTableNames
            (extractSqlFromTemplate multiJoinTemplate.quasis multiJoinTemplate.exprCount)).map
          (fun r =>
            Finding.crossSchemaAccess "organization" (splitPart0 '.' r) (splitPart1 '.' r)) ∧
      (checkTaggedTemplate "organization" multiJoinTemplate).length =
        (extractTableNames
          (extractSqlFromTemplate multiJoinTemplate.quasis multiJoinTemplate.exprCount)).length ∧
      (extractTableNames
        (extractSqlFromTemplate multiJoinTemplate.quasis multiJoinTemplate.exprCount)).Nodup :=
  cross_schema_one_per_distinct_table "organization" multiJoinTemplate rfl (by decide)

/-- C10: the interpolation placeholder can never be captured as a table
reference, and the `SELECT * FROM interpolated-expression` template yields
no finding in any module. -/
theorem placeholder_never_matches :
    (∀ sql : String, ("?" : String) ∉ extractTableNames sql) ∧
      ∀ currentModule : String,
        checkTaggedTemplate currentModule dynamicTableTemplate = [] := by
  constructor
  · intro sql h
    obtain ⟨_, hshape⟩ := mem_extractTableNames_shape sql "?" h
    rcases hshape with hall | hdot
    · exact absurd hall (by decide)
    · exact absurd hdot (by decide)
  · intro currentModule
    rfl

/-- C10 witness: a concrete query and module. -/
theorem placeholder_never_matches_witness :
    (("?" : String) ∉ extractTableNames "SELECT * FROM ?") ∧
      checkTaggedTemplate "auth" dynamicTableTemplate = [] :=
  ⟨placeholder_never_matches.1 "SELECT * FROM ?", placeholder_never_matches.2 "auth"⟩

/-! ## Path classifier (C6) -/

/-- When no occurrence exists anywhere, `indexOfSub` returns `none`. -/
theorem indexOfSub_eq_none (pat : List Char) :
    ∀ cs : List Char, (∀ j, j ≤ cs.length → ¬ pat.isPrefixOf (cs.drop j)) →
      indexOfSub pat cs = none
  | [], h => by
    rw [indexOfSub, if_neg (by simpa using h 0 (Nat.le_refl 0))]
  | c :: rest, h => by
    rw [indexOfSub, if_neg (by simpa using h 0 (Nat.zero_le _)),
      indexOfSub_eq_none pat rest (fun j hj => h (j + 1) (Nat.succ_le_succ hj))]
    rfl

/-- `indexOfSub` returns the index of the first occurrence. -/
theorem indexOfSub_eq_some (pat : List Char) :
    ∀ (cs : List Char) (k : Nat), pat.isPrefixOf (cs.drop k) →
      (∀ j, j < k → ¬ pat.isPrefixOf (cs.drop j)) →
      indexOfSub pat cs = some k
  | cs, 0, hk, _ => by
    cases cs with
    | nil => rw [indexOfSub, if_pos (by simpa using hk)]
    | cons c rest => rw [indexOfSub, if_pos (by simpa using hk)]
  | cs, k + 1, hk, hmin => by
    cases cs with
    | nil =>
      exact absurd (by simpa using hk : pat.isPrefixOf ([] : List Char))
        (by simpa using hmin 0 (Nat.succ_pos k))
    | cons c rest =>
      rw [indexOfSub, if_neg (by simpa using hmin 0 (Nat.succ_pos k)),
        indexOfSub_eq_some pat rest k (by simpa using hk)
          (fun j hj => by simpa using hmin (j + 1) (Nat.succ_lt_succ hj))]
      rfl

/-- C6: `extractDomain` first normalizes backslashes in both arguments;
if the (normalized) marker does not occur in the (normalized) path the
result is `none`; otherwise the result is the first non-empty
slash-separated segment of the suffix after the first occurrence of the
marker (`none` when no non-empty segment remains).  The first occurrence
is characterised by a decomposition `pre ++ marker ++ post` with no
occurrence starting before `pre.length`. -/
theorem extractDomain_first_segment_after_marker (filePath modulePath : String) :
    ((∀ j, j ≤ ((jsReplaceBackslash filePath).data).length →
        ¬ ((jsReplaceBackslash modulePath).data).isPrefixOf
          (((jsReplaceBackslash filePath).data).drop j)) →
      extractModuleFromPath filePath modulePath = none) ∧
    ∀ pre post : List Char,
      (jsReplaceBackslash filePath).data =
        pre ++ (jsReplaceBackslash modulePath).data ++ post →
      (∀ j, j < pre.length →
        ¬ ((jsReplaceBackslash modulePath).data).isPrefixOf
          (((jsReplaceBackslash filePath).data).drop j)) →
      extractModuleFromPath filePath modulePath =
        (((splitOnChar '/' post).filter (fun part => part.length != 0)).head?).map
          String.mk := by
  constructor
  · intro habs
    simp only [extractModuleFromPath]
    rw [indexOfSub_eq_none (jsReplaceBackslash modulePath).data
      (jsReplaceBackslash filePath).data habs]
  · intro pre post hdecomp hfirst
    have hpref : ((jsReplaceBackslash modulePath).data).isPrefixOf
        (((jsReplaceBackslash filePath).data).drop pre.length) := by
      rw [hdecomp, List.append_assoc, List.drop_left]
      exact List.isPrefixOf_iff_prefix.mpr (List.prefix_append _ _)
    have hidx : indexOfSub (jsReplaceBackslash modulePath).data
        (jsReplaceBackslash filePath).data = some pre.length :=
      indexOfSub_eq_some _ _ pre.length hpref hfirst
    have hdrop : ((jsReplaceBackslash filePath).data).drop
        (pre.length + ((jsReplaceBackslash modulePath).data).length) = post := by
      rw [hdecomp, ← List.length_append, List.drop_left]
    simp only [extractModuleFromPath, hidx]
    rw [hdrop]

/-- C6 witness: a Windows-style path with the default marker — the
domain is the segment right after the marker. -/
theorem extractDomain_first_segment_after_marker_witness :
    extractModuleFromPath "C:\\app\\modules\\auth\\user.ts" "/modules/" = some "auth" := by
  have h := (extractDomain_first_segment_after_marker
      "C:\\app\\modules\\auth\\user.ts" "/modules/").2
    "C:/app".data "auth/user.ts".data (by decide) (by decide)
  exact h.trans (by decide)

end DataBoundaries
